import Mathlib

/-!
Verification of the proc_art repository's flow-field, palette and
tessellation code: a shallow embedding of the Rust sources into Lean 4,
with the testable properties of the specification settled as theorems.

Floating-point (`f64`/`f32`) arithmetic is modelled over `ℝ`; machine
integers (`u32`, `usize`, `isize`) over `ℕ`/`ℤ`; Rust panics (asserts,
out-of-range indexing) over `Option`/`Except`.

Layout: all definitions first (the embedding), then all theorems.
-/

namespace ProcArt

/-! ## Definitions: 2D vectors (nalgebra `Vector2<f64>`) -/

/-- A 2D vector of reals, standing for nalgebra's `Vector2<f64>`. -/
structure Vec2 where
  x : ℝ
  y : ℝ

noncomputable instance : DecidableEq Vec2 := Classical.decEq Vec2

noncomputable def Vec2.add (a b : Vec2) : Vec2 := ⟨a.x + b.x, a.y + b.y⟩

noncomputable instance : Add Vec2 := ⟨Vec2.add⟩

/-- Componentwise scalar multiply, the `v * step_size` of the sources. -/
noncomputable def Vec2.muls (v : Vec2) (r : ℝ) : Vec2 := ⟨v.x * r, v.y * r⟩

/-- Euclidean norm, nalgebra's `norm()`. -/
noncomputable def Vec2.norm (v : Vec2) : ℝ := Real.sqrt (v.x ^ 2 + v.y ^ 2)

/-! ## Definitions: the vector noise field (`Noise2x2`, src/bin/noise_flow.rs) -/

/-- The `Noise2x2` struct of noise_flow.rs: two scalar noise channels, a
position scale, a bias vector and a normalize flag.  The boxed
`dyn NoiseFn<f64, 2>` channels are modelled as arbitrary functions
`ℝ → ℝ → ℝ`. -/
structure Noise2x2 where
  pos_scale : ℝ
  normalize : Bool
  bias : Vec2
  noise_x : ℝ → ℝ → ℝ
  noise_y : ℝ → ℝ → ℝ

/-- The vector `out` of `Noise2x2::sample` just after `out += self.bias`:
both channels evaluated at the scaled position, plus the bias.  Note the
code adds the bias BEFORE the normalization branch. -/
noncomputable def Noise2x2.outVec (f : Noise2x2) (pos : Vec2) : Vec2 :=
  ⟨f.noise_x (pos.x / f.pos_scale) (pos.y / f.pos_scale) + f.bias.x,
   f.noise_y (pos.x / f.pos_scale) (pos.y / f.pos_scale) + f.bias.y⟩

/-- The pre-bias vector: both channels evaluated at the scaled position,
before `out += self.bias`. -/
noncomputable def Noise2x2.rawVec (f : Noise2x2) (pos : Vec2) : Vec2 :=
  ⟨f.noise_x (pos.x / f.pos_scale) (pos.y / f.pos_scale),
   f.noise_y (pos.x / f.pos_scale) (pos.y / f.pos_scale)⟩

/-- The method `Noise2x2::sample`: scale the position, sample both
channels, add the bias, and if `normalize && out.norm() > 0.` divide by
the norm (`normalize_mut`). -/
noncomputable def Noise2x2.sample (f : Noise2x2) (pos : Vec2) : Vec2 :=
  let out := f.outVec pos
  if f.normalize = true ∧ 0 < out.norm then
    ⟨out.x / out.norm, out.y / out.norm⟩
  else out

/-! ## Definitions: the walk integrator (`draw_walk` closure, noise_flow.rs) -/

/-- One iteration of the `draw_walk` loop: three field samples, each
advancing by `dx * step_size`, yielding the cubic segment's two control
points and its endpoint `(x2, x3, x4)`. -/
noncomputable def walkStep (f : Noise2x2) (step_size : ℝ) (x : Vec2) :
    Vec2 × Vec2 × Vec2 :=
  let dx1 := f.sample x
  let x2 := x + dx1.muls step_size
  let dx2 := f.sample x2
  let x3 := x2 + dx2.muls step_size
  let dx3 := f.sample x3
  let x4 := x3 + dx3.muls step_size
  (x2, x3, x4)

/-- The control points and endpoints the `for _i in 0..walk_steps` loop
feeds to `cubic_to`, in order: `x2, x3, x4` per iteration, the cursor
moving to `x4`.  The loop has no other exit. -/
noncomputable def walkPoints (f : Noise2x2) (step_size : ℝ) :
    ℕ → Vec2 → List Vec2
  | 0, _ => []
  | n + 1, x =>
    let s := walkStep f step_size x
    s.1 :: s.2.1 :: s.2.2 :: walkPoints f step_size n s.2.2

/-- The full point sequence of one walk path: the `move_to` start point
followed by every point passed to `cubic_to`. -/
noncomputable def draw_walk (f : Noise2x2) (step_size : ℝ) (walk_steps : ℕ)
    (pos : Vec2) : List Vec2 :=
  pos :: walkPoints f step_size walk_steps pos

/-- The featherweight.rs walk loop's exit condition, exactly as written:
`fx < 0. || fx < 0. || fx >= args.size || fy >= args.size`. -/
def fwExitCond (size fx fy : ℝ) : Prop :=
  fx < 0 ∨ fx < 0 ∨ size ≤ fx ∨ size ≤ fy

/-! ## Definitions: the tail integrator (`draw_tail` closure, noise_flow.rs) -/

/-- The `draw_tail` closure: computes `dst = pos + dir * tail_len`, runs
the three asserts (a failing assert is a panic, modelled as `none`), and
emits the two-point tail path `[pos, dst]`. -/
noncomputable def draw_tail (tail_len : ℝ) (pos dir : Vec2) :
    Option (List Vec2) :=
  let dst := pos + dir.muls tail_len
  if pos = (⟨0, 0⟩ : Vec2) then none
  else if dst = (⟨0, 0⟩ : Vec2) then none
  else if ¬((⟨pos.x - dst.x, pos.y - dst.y⟩ : Vec2).norm - tail_len ≤ 0.001)
    then none
  else some [pos, dst]

/-- The tail grid loop body: one field sample at the grid position, passed
to `draw_tail` as the direction. -/
noncomputable def tailAt (f : Noise2x2) (tail_len : ℝ) (pos : Vec2) :
    Option (List Vec2) :=
  draw_tail tail_len pos (f.sample pos)

/-! ## Definitions: concrete field instances used as test inputs -/

/-- A field whose channels both return 0, with bias (0.4, 0.4), as in the
zero-noise-field scenario of the spec (and the default noise_flow bias). -/
noncomputable def zeroNoiseBias04 : Noise2x2 :=
  { pos_scale := 1, normalize := true, bias := ⟨0.4, 0.4⟩
    noise_x := fun _ _ => 0, noise_y := fun _ _ => 0 }

/-- A zero-noise field with bias (3, 4), whose biased vector has norm 5. -/
noncomputable def zeroNoiseBias34 : Noise2x2 :=
  { pos_scale := 1, normalize := true, bias := ⟨3, 4⟩
    noise_x := fun _ _ => 0, noise_y := fun _ _ => 0 }

/-- A bias-free normalized field whose raw vector is (3, 4) everywhere. -/
noncomputable def constNoise34 : Noise2x2 :=
  { pos_scale := 1, normalize := true, bias := ⟨0, 0⟩
    noise_x := fun _ _ => 3, noise_y := fun _ _ => 4 }

/-- A bias-free normalized field whose channels both return 0 everywhere. -/
noncomputable def zeroNoiseField : Noise2x2 :=
  { pos_scale := 1, normalize := true, bias := ⟨0, 0⟩
    noise_x := fun _ _ => 0, noise_y := fun _ _ => 0 }

/-- An unnormalized bias-free field whose sample is (1, 0) everywhere. -/
noncomputable def constField10 : Noise2x2 :=
  { pos_scale := 1, normalize := false, bias := ⟨0, 0⟩
    noise_x := fun _ _ => 1, noise_y := fun _ _ => 0 }

/-! ## Definitions: colors (tiny_skia `Color` as produced by `from_rgba8`) -/

/-- An RGBA color as four 8-bit channel values. -/
structure Color where
  r : Nat
  g : Nat
  b : Nat
  a : Nat
deriving DecidableEq

def Color.from_rgba8 (r g b a : Nat) : Color := ⟨r, g, b, a⟩

/-! ## Definitions: discrete palette lookup (src/bin/noise_tris.rs) -/

/-- The saturating Rust cast `x as usize` for a (finite) f64: truncation
toward zero, negatives to 0 — which is exactly `Nat.floor` on ℝ. -/
noncomputable def f64AsUsize (x : ℝ) : ℕ := ⌊x⌋₊

/-- The per-triangle color lookup of paint_main: `height = (noise + 1.) /
2. * palette.len() as f64; palette[height as usize]`.  Out-of-range
indexing panics; the panic is modelled as `none`.  There is no clamp. -/
noncomputable def trisPaletteColor (palette : List Color) (noiseVal : ℝ) :
    Option Color :=
  palette.get? (f64AsUsize ((noiseVal + 1) / 2 * palette.length))

/-- The 5-color palette of the repository's own parsing test. -/
def palette5 : List Color :=
  [Color.from_rgba8 0 0 0 255, Color.from_rgba8 255 0 0 255,
   Color.from_rgba8 0 255 0 255, Color.from_rgba8 0 0 255 255,
   Color.from_rgba8 255 255 255 255]

/-! ## Definitions: the tessellation grid (src/bin/noise_tris.rs) -/

/-- The triangle height `triangle_side * (60_f32).to_radians().sin()`. -/
noncomputable def triangleHeight (triangle_side : ℝ) : ℝ :=
  triangle_side * Real.sin (60 * (Real.pi / 180))

/-- The anchor of grid cell (i, j) in paint_main: `x = i * side`, shifted
back a half side on even rows (`if j % 2 == 0 { x -= half_side }`),
`y = j * triangle_height`. -/
noncomputable def trisAnchor (triangle_side : ℝ) (i j : ℕ) : Vec2 :=
  ⟨if j % 2 = 0 then i * triangle_side - triangle_side / 2
    else i * triangle_side,
   j * triangleHeight triangle_side⟩

/-- The vertex triple of `draw_top_triangle`. -/
noncomputable def draw_top_triangle (pos : Vec2) (triangle_side : ℝ) :
    List Vec2 :=
  [pos, ⟨pos.x + triangle_side, pos.y⟩,
   ⟨pos.x + triangle_side / 2, pos.y + triangleHeight triangle_side⟩]

/-- The vertex triple of `draw_bottom_triangle`. -/
noncomputable def draw_bottom_triangle (pos : Vec2) (triangle_side : ℝ) :
    List Vec2 :=
  [pos, ⟨pos.x + triangle_side / 2, pos.y + triangleHeight triangle_side⟩,
   ⟨pos.x - triangle_side / 2, pos.y + triangleHeight triangle_side⟩]

/-- The two triangles paint_main emits per grid cell (i, j): the upright
one and the inverted one, both anchored at the same cell anchor. -/
noncomputable def cellTriangles (triangle_side : ℝ) (i j : ℕ) :
    List Vec2 × List Vec2 :=
  (draw_top_triangle (trisAnchor triangle_side i j) triangle_side,
   draw_bottom_triangle (trisAnchor triangle_side i j) triangle_side)

/-! ## Definitions: hex palette parsing (src/skia_colors.rs) -/

/-- The error enum of skia_colors.rs.  Rust's `ParseIntError` payload (the
error kind) carries neither the line nor its length; it is modelled as a
bare constructor. -/
inductive ParseHexColorError where
  | WrongColorStringLength (input_str : String) (actual_length : Nat)
      (expected_length : Nat)
  | ParseIntError
deriving DecidableEq

/-- The value of a hexadecimal digit character, `none` for any other
character (what `u8::from_str_radix(_, 16)` accepts digit-wise). -/
def hexDigitVal (c : Char) : Option Nat :=
  if '0' ≤ c ∧ c ≤ '9' then some (c.toNat - '0'.toNat)
  else if 'a' ≤ c ∧ c ≤ 'f' then some (c.toNat - 'a'.toNat + 10)
  else if 'A' ≤ c ∧ c ≤ 'F' then some (c.toNat - 'A'.toNat + 10)
  else none

def isHexDigit (c : Char) : Bool := (hexDigitVal c).isSome

/-- Rust's `u8::from_str_radix(s, 16)` on a two-character slice: an
optional leading plus sign, then hex digits; anything else is an error
(`none`).  Both hex digits of a color byte fit u8, so overflow cannot
arise. -/
def fromStrRadix16Pair (cs : List Char) : Option Nat :=
  match cs with
  | [c1, c2] =>
    if c1 = '+' then hexDigitVal c2
    else
      match hexDigitVal c1, hexDigitVal c2 with
      | some d1, some d2 => some (16 * d1 + d2)
      | _, _ => none
  | _ => none

/-- The function `parse_hex_color`: reject any line whose byte length is
not 6 with an error naming the line and its length, then parse the three
2-digit hex slices.  (Rust slices `&s[0..2]` by bytes; for ASCII lines
bytes and characters coincide.  On a non-ASCII 6-byte line the Rust code
panics at the byte slice — byte 2 need not be a char boundary — while
this model returns `ParseIntError`; no theorem below reaches that
corner.  Note a leading plus is a parseable non-hex character, so a
6-byte line holding a non-hex character does not always fail.) -/
def parse_hex_color (s : String) : Except ParseHexColorError Color :=
  if s.utf8ByteSize ≠ 6 then
    .error (.WrongColorStringLength s s.utf8ByteSize 6)
  else
    match fromStrRadix16Pair (s.toList.take 2),
        fromStrRadix16Pair ((s.toList.drop 2).take 2),
        fromStrRadix16Pair ((s.toList.drop 4).take 2) with
    | some r, some g, some b => .ok (Color.from_rgba8 r g b 255)
    | _, _, _ => .error .ParseIntError

/-- Split a character list at every newline; the separators are consumed
and an empty trailing fragment is kept (dropped later, as Rust's
`str::lines` drops it). -/
def splitNL : List Char → List (List Char)
  | [] => [[]]
  | c :: rest =>
    if c = '\n' then [] :: splitNL rest
    else
      match splitNL rest with
      | [] => [[c]]
      | l :: ls => (c :: l) :: ls

/-- Strip one trailing carriage return (Rust's `lines` strips a `\r` that
immediately precedes a consumed `\n`). -/
def stripCR (cs : List Char) : List Char :=
  if cs.getLast? = some '\r' then cs.dropLast else cs

/-- Rust's `str::lines`: split at `\n`, strip a `\r` before each consumed
`\n`, and drop the final fragment when it is empty (so a trailing newline
adds no line and the empty string has no lines). -/
def rustLines (s : String) : List String :=
  match (splitNL s.toList).reverse with
  | [] => []
  | lastPart :: revInit =>
    (revInit.reverse.map fun l => String.mk (stripCR l)) ++
      (if lastPart = [] then [] else [String.mk lastPart])

/-- The function `parse_hex_palette`: parse each line, short-circuiting
at the first error (`collect::<Result<_, _>>`). -/
def parse_hex_palette (s : String) : Except ParseHexColorError (List Color) :=
  (rustLines s).mapM parse_hex_color

/-- A line of exactly six hex-digit characters (such a line is ASCII, so
its byte and character counts agree). -/
def isHex6 (s : String) : Bool :=
  s.utf8ByteSize == 6 && s.toList.length == 6 && s.toList.all isHexDigit

/-- The color a six-hex-digit line denotes. -/
def hexColorOf (s : String) : Color :=
  match s.toList.map (fun c => (hexDigitVal c).getD 0) with
  | [r1, r2, g1, g2, b1, b2] =>
    Color.from_rgba8 (16 * r1 + r2) (16 * g1 + g2) (16 * b1 + b2) 255
  | _ => Color.from_rgba8 0 0 0 255

deriving instance DecidableEq for Except

/-! ## Definitions: the noise selector (src/noise.rs) -/

/-- The flat enum `NoiseSelector`. -/
inductive NoiseSelector where
  | Simplex
  | Perlin
  | FbmPerlin
deriving DecidableEq

/-- The constant `NOISE_SELECTORS_LEN`. -/
def NOISE_SELECTORS_LEN : Int := 3

/-- The discriminant of the enum, `self as isize`. -/
def NoiseSelector.toIsize : NoiseSelector → Int
  | .Simplex => 0
  | .Perlin => 1
  | .FbmPerlin => 2

/-- The `Default` impl: `Self::Perlin`. -/
def NoiseSelector.defaultSelector : NoiseSelector := .Perlin

/-- The `From<isize>` impl: indices 0, 1, 2 select the variants in order
and anything else falls back to `Self::default()`. -/
def NoiseSelector.fromIsize (idx : Int) : NoiseSelector :=
  if idx = 0 then .Simplex
  else if idx = 1 then .Perlin
  else if idx = 2 then .FbmPerlin
  else defaultSelector

/-- The method `get_next`: `Self::from((*self as isize + 1) %
NOISE_SELECTORS_LEN)`. -/
def NoiseSelector.get_next (s : NoiseSelector) : NoiseSelector :=
  fromIsize ((s.toIsize + 1) % NOISE_SELECTORS_LEN)

/-- The method `get_prev`: `Self::from((*self as isize +
NOISE_SELECTORS_LEN - 1) % NOISE_SELECTORS_LEN)`. -/
def NoiseSelector.get_prev (s : NoiseSelector) : NoiseSelector :=
  fromIsize ((s.toIsize + NOISE_SELECTORS_LEN - 1) % NOISE_SELECTORS_LEN)

/-! ## Lemmas on Vec2 -/

theorem Vec2.add_def (a b : Vec2) : a + b = ⟨a.x + b.x, a.y + b.y⟩ := rfl

theorem Vec2.norm_nonneg (v : Vec2) : 0 ≤ v.norm := Real.sqrt_nonneg _

theorem Vec2.norm_eq_zero_iff (v : Vec2) : v.norm = 0 ↔ v = ⟨0, 0⟩ := by
  unfold norm
  rw [show v = Vec2.mk v.x v.y from rfl]
  simp only [Vec2.mk.injEq]
  rw [Real.sqrt_eq_zero (by positivity)]
  constructor
  · intro h
    constructor
    · nlinarith [sq_nonneg v.x, sq_nonneg v.y]
    · nlinarith [sq_nonneg v.x, sq_nonneg v.y]
  · rintro ⟨hx, hy⟩
    rw [hx, hy]; ring

theorem Vec2.norm_pos_iff (v : Vec2) : 0 < v.norm ↔ v ≠ ⟨0, 0⟩ := by
  rw [lt_iff_le_and_ne]
  constructor
  · rintro ⟨-, h⟩
    intro hv
    exact h (((norm_eq_zero_iff v).mpr hv).symm)
  · intro h
    refine ⟨norm_nonneg v, fun h0 => h ((norm_eq_zero_iff v).mp h0.symm)⟩

/-- The normalization step: a vector divided by its (positive) norm has
norm exactly 1. -/
theorem Vec2.norm_div_norm (v : Vec2) (h : 0 < v.norm) :
    Vec2.norm ⟨v.x / v.norm, v.y / v.norm⟩ = 1 := by
  have hs : v.norm ^ 2 = v.x ^ 2 + v.y ^ 2 := Real.sq_sqrt (by positivity)
  have hne : v.norm ≠ 0 := ne_of_gt h
  show Real.sqrt ((v.x / v.norm) ^ 2 + (v.y / v.norm) ^ 2) = 1
  rw [div_pow, div_pow, div_add_div_same, ← hs, div_self (pow_ne_zero 2 hne)]
  exact Real.sqrt_one

theorem Vec2.norm_zero_vec : Vec2.norm ⟨0, 0⟩ = 0 := by
  show Real.sqrt ((0 : ℝ) ^ 2 + (0 : ℝ) ^ 2) = 0
  norm_num

theorem Vec2.add_muls_zero (x v : Vec2) : x + v.muls 0 = x := by
  cases x with
  | mk a b => simp [Vec2.muls, Vec2.add_def]

theorem Vec2.zero_muls (t : ℝ) : (⟨0, 0⟩ : Vec2).muls t = ⟨0, 0⟩ := by
  simp [Vec2.muls]

theorem Vec2.add_zero_vec (v : Vec2) : v + ⟨0, 0⟩ = v := by
  cases v with
  | mk a b => simp [Vec2.add_def]

/-- Norm of the negated scaled vector, as arises in the tail-length
assert. -/
theorem Vec2.norm_neg_muls (v : Vec2) (t : ℝ) :
    Vec2.norm ⟨-(v.x * t), -(v.y * t)⟩ = |t| * v.norm := by
  show Real.sqrt ((-(v.x * t)) ^ 2 + (-(v.y * t)) ^ 2) =
    |t| * Real.sqrt (v.x ^ 2 + v.y ^ 2)
  rw [show (-(v.x * t)) ^ 2 + (-(v.y * t)) ^ 2 = t ^ 2 * (v.x ^ 2 + v.y ^ 2)
    by ring]
  rw [Real.sqrt_mul (sq_nonneg t), Real.sqrt_sq_eq_abs]

/-! ## Lemmas on the field and the integrators -/

/-- With the normalize flag set, a sampled vector's norm is exactly 0 or
exactly 1: the normalization branch yields a unit vector, and it is
skipped only when `out` is the zero vector. -/
theorem Noise2x2.sample_norm_zero_or_one (f : Noise2x2) (pos : Vec2)
    (hn : f.normalize = true) :
    (f.sample pos).norm = 0 ∨ (f.sample pos).norm = 1 := by
  unfold sample
  by_cases h : 0 < (f.outVec pos).norm
  · right
    rw [if_pos ⟨hn, h⟩]
    exact Vec2.norm_div_norm _ h
  · left
    rw [if_neg (fun hc => h hc.2)]
    exact le_antisymm (not_lt.mp h) (Vec2.norm_nonneg _)

theorem zeroNoiseField_sample (pos : Vec2) :
    zeroNoiseField.sample pos = ⟨0, 0⟩ := by
  have hout : zeroNoiseField.outVec pos = ⟨0, 0⟩ := by
    simp [Noise2x2.outVec, zeroNoiseField]
  show (if zeroNoiseField.normalize = true ∧
      0 < (zeroNoiseField.outVec pos).norm
    then (⟨(zeroNoiseField.outVec pos).x / (zeroNoiseField.outVec pos).norm,
          (zeroNoiseField.outVec pos).y / (zeroNoiseField.outVec pos).norm⟩ :
      Vec2)
    else zeroNoiseField.outVec pos) = ⟨0, 0⟩
  rw [hout, Vec2.norm_zero_vec, if_neg (by norm_num)]

theorem norm_three_four : Vec2.norm ⟨3, 4⟩ = 5 := by
  show Real.sqrt ((3 : ℝ) ^ 2 + (4 : ℝ) ^ 2) = 5
  rw [show (3 : ℝ) ^ 2 + (4 : ℝ) ^ 2 = 5 ^ 2 by norm_num,
    Real.sqrt_sq (by norm_num)]

theorem walkPoints_length (f : Noise2x2) (step_size : ℝ) :
    ∀ (n : ℕ) (x : Vec2), (walkPoints f step_size n x).length = 3 * n := by
  intro n
  induction n with
  | zero => intro x; rfl
  | succ k ih =>
    intro x
    show (_ :: _ :: _ :: walkPoints f step_size k _).length = 3 * (k + 1)
    simp only [List.length_cons, ih]
    ring

theorem walkStep_zero_step (f : Noise2x2) (x : Vec2) :
    walkStep f 0 x = (x, x, x) := by
  simp only [walkStep, Vec2.add_muls_zero]

/-! ## Lemmas on hex parsing -/

theorem exists_six_of_length {α : Type} {l : List α} (h : l.length = 6) :
    ∃ a b c d e f, l = [a, b, c, d, e, f] := by
  rcases l with _ | ⟨a, _ | ⟨b, _ | ⟨c, _ | ⟨d, _ | ⟨e, _ | ⟨f, _ | ⟨g, t⟩⟩⟩⟩⟩⟩⟩ <;>
    simp only [List.length_cons, List.length_nil] at h <;>
    first
    | omega
    | exact ⟨_, _, _, _, _, _, rfl⟩

theorem fromStrRadix16Pair_hex {c1 c2 : Char} {d1 d2 : Nat}
    (h1 : hexDigitVal c1 = some d1) (h2 : hexDigitVal c2 = some d2) :
    fromStrRadix16Pair [c1, c2] = some (16 * d1 + d2) := by
  have hplus : c1 ≠ '+' := by
    intro hc
    rw [hc, show hexDigitVal '+' = none from by decide] at h1
    exact Option.noConfusion h1
  show (if c1 = '+' then hexDigitVal c2
    else
      match hexDigitVal c1, hexDigitVal c2 with
      | some d1, some d2 => some (16 * d1 + d2)
      | _, _ => none) = some (16 * d1 + d2)
  rw [if_neg hplus, h1, h2]

/-- A line of six hex digits parses to its denoted color. -/
theorem parse_hex_color_hex6 (s : String) (h : isHex6 s = true) :
    parse_hex_color s = .ok (hexColorOf s) := by
  unfold isHex6 at h
  rw [Bool.and_eq_true, Bool.and_eq_true] at h
  obtain ⟨⟨hb, hl⟩, hall⟩ := h
  rw [beq_iff_eq] at hb hl
  unfold parse_hex_color hexColorOf
  rw [if_neg (not_not_intro hb)]
  generalize hls : s.toList = l at hl hall ⊢
  obtain ⟨c1, c2, c3, c4, c5, c6, rfl⟩ := exists_six_of_length hl
  simp only [List.all_cons, Bool.and_eq_true, List.all_nil, and_true,
    isHexDigit] at hall
  obtain ⟨h1, h2, h3, h4, h5, h6⟩ := hall
  obtain ⟨d1, hd1⟩ := Option.isSome_iff_exists.mp h1
  obtain ⟨d2, hd2⟩ := Option.isSome_iff_exists.mp h2
  obtain ⟨d3, hd3⟩ := Option.isSome_iff_exists.mp h3
  obtain ⟨d4, hd4⟩ := Option.isSome_iff_exists.mp h4
  obtain ⟨d5, hd5⟩ := Option.isSome_iff_exists.mp h5
  obtain ⟨d6, hd6⟩ := Option.isSome_iff_exists.mp h6
  simp [fromStrRadix16Pair_hex hd1 hd2, fromStrRadix16Pair_hex hd3 hd4,
    fromStrRadix16Pair_hex hd5 hd6, hd1, hd2, hd3, hd4, hd5, hd6]

theorem mapM_hex_ok {l : List String}
    (h : ∀ x ∈ l, parse_hex_color x = .ok (hexColorOf x)) :
    l.mapM parse_hex_color = .ok (l.map hexColorOf) := by
  induction l with
  | nil => rfl
  | cons a t ih =>
    rw [List.mapM_cons, h a (by simp), ih (fun x hx => h x (by simp [hx]))]
    rfl

theorem mapM_hex_error {e : ParseHexColorError} :
    ∀ (pre : List String) (l : String) (post : List String),
    (∀ p ∈ pre, parse_hex_color p = .ok (hexColorOf p)) →
    parse_hex_color l = .error e →
    (pre ++ l :: post).mapM parse_hex_color = .error e := by
  intro pre
  induction pre with
  | nil =>
    intro l post _ hl
    rw [List.nil_append, List.mapM_cons, hl]
    rfl
  | cons a t ih =>
    intro l post hpre hl
    rw [List.cons_append, List.mapM_cons, hpre a (by simp),
      ih l post (fun p hp => hpre p (by simp [hp])) hl]
    rfl

/-! ## Claim C1: is bias added after normalization? -/

/-- C1 counterexample.  The claim says a zero-noise field with
`normalize=true, bias=(0.4,0.4)` samples to exactly `(0.4,0.4)`.  In the
code `out += self.bias` runs BEFORE the normalization branch, so the
sampled vector is the renormalized bias, not the bias: at the origin the
sample differs from `(0.4, 0.4)`. -/
theorem sample_bias_prenormalized_cex :
    zeroNoiseBias04.normalize = true ∧
    zeroNoiseBias04.bias = ⟨0.4, 0.4⟩ ∧
    zeroNoiseBias04.noise_x 0 0 = 0 ∧
    zeroNoiseBias04.noise_y 0 0 = 0 ∧
    zeroNoiseBias04.sample ⟨0, 0⟩ ≠ ⟨0.4, 0.4⟩ := by
  refine ⟨rfl, rfl, rfl, rfl, ?_⟩
  have hout : zeroNoiseBias04.outVec ⟨0, 0⟩ = ⟨0.4, 0.4⟩ := by
    simp [Noise2x2.outVec, zeroNoiseBias04]
  have hnorm : Vec2.norm ⟨0.4, 0.4⟩ = Real.sqrt 0.32 := by
    show Real.sqrt ((0.4 : ℝ) ^ 2 + (0.4 : ℝ) ^ 2) = Real.sqrt 0.32
    norm_num
  have hpos : 0 < Real.sqrt 0.32 := Real.sqrt_pos.mpr (by norm_num)
  have hsample : zeroNoiseBias04.sample ⟨0, 0⟩ =
      ⟨0.4 / Real.sqrt 0.32, 0.4 / Real.sqrt 0.32⟩ := by
    show (if zeroNoiseBias04.normalize = true ∧
        0 < (zeroNoiseBias04.outVec ⟨0, 0⟩).norm
      then (⟨(zeroNoiseBias04.outVec ⟨0, 0⟩).x /
              (zeroNoiseBias04.outVec ⟨0, 0⟩).norm,
            (zeroNoiseBias04.outVec ⟨0, 0⟩).y /
              (zeroNoiseBias04.outVec ⟨0, 0⟩).norm⟩ : Vec2)
      else zeroNoiseBias04.outVec ⟨0, 0⟩) = _
    rw [hout, hnorm, if_pos ⟨rfl, hpos⟩]
  rw [hsample]
  intro h
  have hx : (0.4 : ℝ) / Real.sqrt 0.32 = 0.4 := congrArg Vec2.x h
  rw [div_eq_iff (ne_of_gt hpos)] at hx
  have h1 : Real.sqrt 0.32 = 1 := by linarith
  have h2 : (0.32 : ℝ) = 1 := Real.sqrt_eq_one.mp h1
  norm_num at h2

/-- C1, amended: `Noise2x2::sample` adds the bias BEFORE the normalization
branch, so on a zero-noise input with `normalize=true` the result is the
bias renormalized to unit length when the bias is non-zero (and the zero
vector when the bias is zero), not the bias itself. -/
theorem sample_zero_noise_normalizes_bias (f : Noise2x2) (pos : Vec2)
    (hn : f.normalize = true)
    (hx : f.noise_x (pos.x / f.pos_scale) (pos.y / f.pos_scale) = 0)
    (hy : f.noise_y (pos.x / f.pos_scale) (pos.y / f.pos_scale) = 0) :
    f.sample pos =
      if 0 < f.bias.norm
      then ⟨f.bias.x / f.bias.norm, f.bias.y / f.bias.norm⟩
      else f.bias := by
  have hout : f.outVec pos = f.bias := by
    simp [Noise2x2.outVec, hx, hy]
  show (if f.normalize = true ∧ 0 < (f.outVec pos).norm
    then (⟨(f.outVec pos).x / (f.outVec pos).norm,
          (f.outVec pos).y / (f.outVec pos).norm⟩ : Vec2)
    else f.outVec pos) = _
  rw [hout]
  by_cases hb : 0 < f.bias.norm
  · rw [if_pos ⟨hn, hb⟩, if_pos hb]
  · rw [if_neg (fun hc => hb hc.2), if_neg hb]

/-- C1 witness: a zero-noise field with bias (3, 4) samples to the unit
vector (3/5, 4/5). -/
theorem sample_zero_noise_normalizes_bias_witness :
    zeroNoiseBias34.sample ⟨0, 0⟩ = ⟨3 / 5, 4 / 5⟩ := by
  have h := sample_zero_noise_normalizes_bias zeroNoiseBias34 ⟨0, 0⟩ rfl rfl rfl
  have hb : zeroNoiseBias34.bias = (⟨3, 4⟩ : Vec2) := rfl
  rw [h, hb, norm_three_four, if_pos (by norm_num)]

/-! ## Claim C2: does the walk integrator exit the canvas bounds early? -/

/-- C2 counterexample.  The claim says a walk whose start is already
outside the canvas bounds produces a path of length 1 (the start point
only).  The `draw_walk` loop in noise_flow.rs has no bounds check at all:
started at (-100, -100), outside any canvas, a 1-step walk still emits its
cubic segment, giving a 4-point path. -/
theorem draw_walk_outside_start_cex :
    ((-100 : ℝ) < 0) ∧
    (draw_walk constField10 1 1 ⟨-100, -100⟩).length = 4 ∧
    (draw_walk constField10 1 1 ⟨-100, -100⟩).length ≠ 1 := by
  have hlen : (draw_walk constField10 1 1 ⟨-100, -100⟩).length = 4 := by
    show (_ :: walkPoints constField10 1 1 ⟨-100, -100⟩).length = 4
    rw [List.length_cons, walkPoints_length]
  exact ⟨by norm_num, hlen, by rw [hlen]; norm_num⟩

/-- C2, amended: the noise_flow walk integrator performs no bounds check —
it always runs exactly `n` iterations and emits exactly `n` cubic segments
(a path of `3n+1` points beginning at the start point) wherever the start
lies; and the featherweight walk's exit condition tests `fx < 0.` twice
instead of `fy < 0.`, so a point above the canvas (`fy < 0`) with
`0 ≤ fx < size` and `fy < size` never triggers the exit. -/
theorem draw_walk_no_bounds_exit (f : Noise2x2) (step_size : ℝ) (n : ℕ)
    (pos : Vec2) (size fx fy : ℝ)
    (hx0 : 0 ≤ fx) (hx1 : fx < size) (hy1 : fy < size) :
    (draw_walk f step_size n pos).length = 3 * n + 1 ∧
    (draw_walk f step_size n pos).head? = some pos ∧
    ¬ fwExitCond size fx fy := by
  refine ⟨?_, rfl, ?_⟩
  · show (_ :: walkPoints f step_size n pos).length = 3 * n + 1
    rw [List.length_cons, walkPoints_length]
  · rintro (h | h | h | h) <;> linarith

/-- C2 witness: with a 1024-canvas, the point (5, -5) — above the canvas —
does not trigger the featherweight exit condition, and a 2-step walk from
the origin has 7 points. -/
theorem draw_walk_no_bounds_exit_witness :
    (draw_walk constField10 1 2 ⟨0, 0⟩).length = 3 * 2 + 1 ∧
    ¬ fwExitCond 1024 5 (-5) := by
  have h := draw_walk_no_bounds_exit constField10 1 2 ⟨0, 0⟩ 1024 5 (-5)
    (by norm_num) (by norm_num) (by norm_num)
  exact ⟨h.1, h.2.2⟩

/-! ## Claim C3: the discrete palette lookup at value 1.0 -/

/-- C3: the noise_tris discrete palette lookup does NOT clamp.  At a noise
sample of exactly 1.0 — normalized value `(1+1)/2 = 1.0` — with a 5-color
palette it computes index `⌊1.0 * 5⌋ = 5` and indexes out of range, a
panic, instead of returning the last color as the claim requires.  (The
noise_flow variant clamps with `.clamp(0, 9)`; noise_tris, the cited
discrete resolver, has no clamp at all.) -/
theorem trisPalette_value_one_out_of_range :
    f64AsUsize ((1 + 1) / 2 * (palette5.length : ℝ)) = 5 ∧
    trisPaletteColor palette5 1 = none := by
  have hidx : f64AsUsize ((1 + 1) / 2 * (palette5.length : ℝ)) = 5 := by
    show ⌊((1 : ℝ) + 1) / 2 * (palette5.length : ℝ)⌋₊ = 5
    rw [show ((palette5.length : ℝ)) = 5 by norm_num [palette5]]
    rw [show ((1 : ℝ) + 1) / 2 * 5 = ((5 : ℕ) : ℝ) by norm_num]
    exact Nat.floor_natCast 5
  refine ⟨hidx, ?_⟩
  show palette5.get? (f64AsUsize ((1 + 1) / 2 * (palette5.length : ℝ))) = none
  rw [hidx]
  rfl

/-! ## Claim C4: sampled magnitude is exactly 0 or 1 when normalized -/

/-- C4: with `normalize=true` and `bias=(0,0)` the sampled vector's norm
is exactly 0 or exactly 1 — the sample is the zero vector exactly when
the pre-bias vector is the zero vector (the normalization branch, and its
division, is skipped: no division by zero), and has norm exactly 1
whenever the pre-bias vector is non-zero. -/
theorem sample_norm_zero_or_one_zero_bias (f : Noise2x2) (pos : Vec2)
    (hn : f.normalize = true) (hb : f.bias = ⟨0, 0⟩) :
    ((f.sample pos).norm = 0 ∨ (f.sample pos).norm = 1) ∧
    (f.rawVec pos = ⟨0, 0⟩ → f.sample pos = ⟨0, 0⟩) ∧
    (f.rawVec pos ≠ ⟨0, 0⟩ → (f.sample pos).norm = 1) := by
  have hout : f.outVec pos = f.rawVec pos := by
    simp [Noise2x2.outVec, Noise2x2.rawVec, hb]
  have hshow : f.sample pos =
      if f.normalize = true ∧ 0 < (f.outVec pos).norm
      then (⟨(f.outVec pos).x / (f.outVec pos).norm,
            (f.outVec pos).y / (f.outVec pos).norm⟩ : Vec2)
      else f.outVec pos := rfl
  refine ⟨Noise2x2.sample_norm_zero_or_one f pos hn, ?_, ?_⟩
  · intro hraw
    rw [hshow, hout, hraw, if_neg (by rw [Vec2.norm_zero_vec]; norm_num)]
  · intro hraw
    have hpos : 0 < (f.outVec pos).norm := by
      rw [hout]; exact (Vec2.norm_pos_iff _).mpr hraw
    rw [hshow, if_pos ⟨hn, hpos⟩]
    exact Vec2.norm_div_norm _ hpos

/-- C4 witness: the constant field with raw vector (3, 4) samples to a
vector of norm exactly 1. -/
theorem sample_norm_zero_or_one_zero_bias_witness :
    (constNoise34.sample ⟨0, 0⟩).norm = 1 := by
  have h := sample_norm_zero_or_one_zero_bias constNoise34 ⟨0, 0⟩ rfl rfl
  refine h.2.2 ?_
  intro hc
  have h3 : (3 : ℝ) = 0 := congrArg Vec2.x hc
  norm_num at h3

/-! ## Claim C5: the tail integrator -/

/-- C5: the tail integrator samples the field once at the start position
(by construction of `tailAt`) and emits the two-point path
`[pos, pos + d * tail_len]`; its asserts pass whenever the start and the
endpoint are non-zero (as holds at every grid position the driver uses),
so when `d` is the zero vector the result is the collapsed two-point path
`[pos, pos]` — a zero-length segment, not a panic. -/
theorem draw_tail_two_point_path (f : Noise2x2) (tail_len : ℝ) (pos : Vec2)
    (hn : f.normalize = true) (ht : 0 < tail_len)
    (hp : pos ≠ ⟨0, 0⟩)
    (hdst : pos + (f.sample pos).muls tail_len ≠ ⟨0, 0⟩) :
    tailAt f tail_len pos = some [pos, pos + (f.sample pos).muls tail_len] ∧
    (f.sample pos = ⟨0, 0⟩ → tailAt f tail_len pos = some [pos, pos]) := by
  have hd01 := Noise2x2.sample_norm_zero_or_one f pos hn
  have hxc : pos.x - (pos + (f.sample pos).muls tail_len).x =
      -((f.sample pos).x * tail_len) := by
    show pos.x - (pos.x + (f.sample pos).x * tail_len) = _
    ring
  have hyc : pos.y - (pos + (f.sample pos).muls tail_len).y =
      -((f.sample pos).y * tail_len) := by
    show pos.y - (pos.y + (f.sample pos).y * tail_len) = _
    ring
  have hassert : (⟨pos.x - (pos + (f.sample pos).muls tail_len).x,
      pos.y - (pos + (f.sample pos).muls tail_len).y⟩ : Vec2).norm -
      tail_len ≤ 0.001 := by
    rw [hxc, hyc, Vec2.norm_neg_muls, abs_of_pos ht]
    rcases hd01 with h0 | h1
    · rw [h0]; linarith
    · rw [h1]; linarith
  have hmain : tailAt f tail_len pos =
      some [pos, pos + (f.sample pos).muls tail_len] := by
    show (if pos = (⟨0, 0⟩ : Vec2) then none
      else if pos + (f.sample pos).muls tail_len = (⟨0, 0⟩ : Vec2) then none
      else if ¬((⟨pos.x - (pos + (f.sample pos).muls tail_len).x,
          pos.y - (pos + (f.sample pos).muls tail_len).y⟩ : Vec2).norm -
          tail_len ≤ 0.001) then none
      else some [pos, pos + (f.sample pos).muls tail_len]) = _
    rw [if_neg hp, if_neg hdst, if_neg (not_not_intro hassert)]
  refine ⟨hmain, fun h0 => ?_⟩
  rw [h0, Vec2.zero_muls, Vec2.add_zero_vec] at hmain
  exact hmain

/-- C5 witness: the all-zero field at grid position (32, 32) with tail
length 16 yields the collapsed path `[(32,32), (32,32)]`. -/
theorem draw_tail_two_point_path_witness :
    tailAt zeroNoiseField 16 ⟨32, 32⟩ = some [⟨32, 32⟩, ⟨32, 32⟩] := by
  have hs := zeroNoiseField_sample ⟨32, 32⟩
  have hp : (⟨32, 32⟩ : Vec2) ≠ ⟨0, 0⟩ := by
    intro h
    have h32 : (32 : ℝ) = 0 := congrArg Vec2.x h
    norm_num at h32
  have hdst : (⟨32, 32⟩ : Vec2) +
      (zeroNoiseField.sample ⟨32, 32⟩).muls 16 ≠ ⟨0, 0⟩ := by
    rw [hs, Vec2.zero_muls, Vec2.add_zero_vec]
    exact hp
  exact (draw_tail_two_point_path zeroNoiseField 16 ⟨32, 32⟩ rfl
    (by norm_num) hp hdst).2 hs

/-! ## Claim C6: the walk with step_size = 0 -/

/-- C6: the walk integrator with `step_size = 0` runs exactly its `n`
iterations (no infinite loop is possible: the loop is a bounded `for`),
and every point of the produced path coincides with the start point. -/
theorem draw_walk_zero_step_size (f : Noise2x2) (n : ℕ) (pos : Vec2) :
    draw_walk f 0 n pos = List.replicate (3 * n + 1) pos := by
  have hpts : ∀ (m : ℕ) (x : Vec2),
      walkPoints f 0 m x = List.replicate (3 * m) x := by
    intro m
    induction m with
    | zero => intro x; rfl
    | succ k ih =>
      intro x
      show (walkStep f 0 x).1 :: (walkStep f 0 x).2.1 :: (walkStep f 0 x).2.2 ::
        walkPoints f 0 k (walkStep f 0 x).2.2 = _
      rw [walkStep_zero_step, ih,
        show 3 * (k + 1) = 3 * k + 1 + 1 + 1 by ring,
        List.replicate_succ, List.replicate_succ, List.replicate_succ]
  show pos :: walkPoints f 0 n pos = _
  rw [hpts, List.replicate_succ]

/-! ## Claim C7: the tessellation grid cells -/

/-- C7: for every grid index pair (i, j), the anchor is `x = i*side` with
a half-side offset on alternating (even) rows and
`y = j*triangle_height`, and exactly two triangles are emitted per
anchor: the upright triangle `anchor, anchor+(side,0),
anchor+(side/2,height)` and the inverted triangle sharing the anchor with
vertices `anchor, anchor+(side/2,height), anchor+(-side/2,height)`. -/
theorem cellTriangles_spec (s : ℝ) (i j : ℕ) :
    (j % 2 = 0 → trisAnchor s i j = ⟨i * s - s / 2, j * triangleHeight s⟩) ∧
    (j % 2 ≠ 0 → trisAnchor s i j = ⟨i * s, j * triangleHeight s⟩) ∧
    (cellTriangles s i j).1 =
      [trisAnchor s i j,
       trisAnchor s i j + ⟨s, 0⟩,
       trisAnchor s i j + ⟨s / 2, triangleHeight s⟩] ∧
    (cellTriangles s i j).2 =
      [trisAnchor s i j,
       trisAnchor s i j + ⟨s / 2, triangleHeight s⟩,
       trisAnchor s i j + ⟨-(s / 2), triangleHeight s⟩] := by
  refine ⟨fun h => by simp [trisAnchor, h], fun h => by simp [trisAnchor, h],
    ?_, ?_⟩
  · show draw_top_triangle (trisAnchor s i j) s = _
    simp [draw_top_triangle, Vec2.add_def]
  · show draw_bottom_triangle (trisAnchor s i j) s = _
    simp [draw_bottom_triangle, Vec2.add_def, sub_eq_add_neg]

/-! ## Claim C8: palette parsing and its error reporting -/

/-- C8 counterexample.  The claim says the parse fails with an error
naming the offending line and its length whenever a line is not exactly 6
hex characters.  The line "zzzzzz" is not 6 hex characters, yet the parse
returns the bare `ParseIntError`, which names neither the line nor a
length — the naming error is produced only for lines whose LENGTH is not
6. -/
theorem parse_hex_palette_parseint_cex :
    isHex6 "zzzzzz" = false ∧
    parse_hex_palette "zzzzzz" = .error .ParseIntError ∧
    (Except.error ParseHexColorError.ParseIntError :
        Except ParseHexColorError (List Color)) ≠
      .error (.WrongColorStringLength "zzzzzz" 6 6) := by
  exact ⟨by decide, by decide, by decide⟩

/-- C8, amended: palette loading fails with a parse error naming the
offending (first bad) line and its byte length whenever that line's byte
LENGTH is not 6; the naming guarantee does not extend to every line that
is not 6 hex characters — a length-6 line such as "zzzzzz" fails with
the bare `ParseIntError` instead, naming neither the line nor a length
(see the counterexample).  An input all of whose lines are exactly 6 hex
characters parses to the ordered color sequence of those lines. -/
theorem parse_hex_palette_spec (s : String) :
    ((∀ l ∈ rustLines s, isHex6 l = true) →
      parse_hex_palette s = .ok ((rustLines s).map hexColorOf)) ∧
    (∀ pre l post, rustLines s = pre ++ l :: post →
      (∀ p ∈ pre, isHex6 p = true) → l.utf8ByteSize ≠ 6 →
      parse_hex_palette s = .error
        (.WrongColorStringLength l l.utf8ByteSize 6)) := by
  constructor
  · intro h
    exact mapM_hex_ok (fun x hx => parse_hex_color_hex6 x (h x hx))
  · intro pre l post hsplit hpre hlen
    unfold parse_hex_palette
    rw [hsplit]
    exact mapM_hex_error pre l post
      (fun p hp => parse_hex_color_hex6 p (hpre p hp))
      (by unfold parse_hex_color; rw [if_pos hlen])

/-- C8 witness: the end-to-end scenario — the five-line hex text parses
to black, red, green, blue, white, in that order. -/
theorem parse_hex_palette_spec_witness :
    parse_hex_palette "000000\nff0000\n00ff00\n0000ff\nffffff" =
      .ok [Color.from_rgba8 0 0 0 255, Color.from_rgba8 255 0 0 255,
        Color.from_rgba8 0 255 0 255, Color.from_rgba8 0 0 255 255,
        Color.from_rgba8 255 255 255 255] := by
  have h := (parse_hex_palette_spec "000000\nff0000\n00ff00\n0000ff\nffffff").1
    (by decide)
  rw [h]
  decide

/-! ## Claim C9: the empty palette -/

/-- C9: `parse_hex_palette` applied to the empty string returns `Ok` with
an empty color sequence, not an error — the parser itself accepts an
empty palette. -/
theorem parse_hex_palette_empty_ok :
    parse_hex_palette "" = .ok ([] : List Color) := rfl

/-! ## Claim C10: the noise selector's cyclic structure -/

/-- C10: `get_next` and `get_prev` are inverse cyclic shifts over the
three selectors; `from(i)` converted back to isize equals `i` for `i` in
`0..NOISE_SELECTORS_LEN`; and out-of-range `i` maps to the default
selector, which is Perlin. -/
theorem noiseSelector_next_prev_inverse (s : NoiseSelector) (i : Int) :
    s.get_next.get_prev = s ∧
    s.get_prev.get_next = s ∧
    (0 ≤ i ∧ i < NOISE_SELECTORS_LEN →
      (NoiseSelector.fromIsize i).toIsize = i) ∧
    (¬(0 ≤ i ∧ i < NOISE_SELECTORS_LEN) →
      NoiseSelector.fromIsize i = NoiseSelector.defaultSelector) ∧
    NoiseSelector.defaultSelector = NoiseSelector.Perlin := by
  refine ⟨by cases s <;> decide, by cases s <;> decide, ?_, ?_, rfl⟩
  · rintro ⟨h0, h3⟩
    have h3' : i < 3 := h3
    interval_cases i <;> decide
  · intro h
    have hne : i ≠ 0 ∧ i ≠ 1 ∧ i ≠ 2 := by
      have hr : ¬(0 ≤ i ∧ i < 3) := h
      omega
    unfold NoiseSelector.fromIsize
    rw [if_neg hne.1, if_neg hne.2.1, if_neg hne.2.2]

/-- C10 witness: in-range round trip at 2; out-of-range 255 falls back to
the default selector, as the repository's own test checks. -/
theorem noiseSelector_next_prev_inverse_witness :
    (NoiseSelector.fromIsize 2).toIsize = 2 ∧
    NoiseSelector.fromIsize 255 = NoiseSelector.defaultSelector := by
  exact ⟨(noiseSelector_next_prev_inverse .Simplex 2).2.2.1 (by decide),
    (noiseSelector_next_prev_inverse .Simplex 255).2.2.2.1 (by decide)⟩

end ProcArt
